import Mathlib

/-!
Verification of the RUL (remaining useful life) inference program
`src/analysis/predict_rul.py` against its natural-language specification.

The program is a PyTorch encoder–decoder attention model plus a deterministic
inference loop.  Tensors of shape (B, L, D) are embedded as functions
`Fin B → Fin L → Fin D → ℝ`; the multi-head reshape/permute index arithmetic
of the source is embedded explicitly through slot functions.  Real-valued
layers (softmax, GELU, sin/cos tables, the 100^s − 1 inverse transform) are
embedded over ℝ.
-/

noncomputable section

/-- A torch.nn.Linear layer applied to one vector: output j = Σ_i W j i * v i + b j. -/
def linW {m n : ℕ} (W : Fin m → Fin n → ℝ) (b : Fin m → ℝ) (v : Fin n → ℝ) : Fin m → ℝ :=
  fun j => (∑ i, W j i * v i) + b j

/-- Gauss error function, the exact form used by torch.nn.GELU. -/
def erf (t : ℝ) : ℝ := (2 / Real.sqrt Real.pi) * ∫ s in (0:ℝ)..t, Real.exp (-(s ^ 2))

/-- GELU activation: 0.5 * x * (1 + erf (x / sqrt 2)). -/
def gelu (x : ℝ) : ℝ := 0.5 * x * (1 + erf (x / Real.sqrt 2))

/-- torch.softmax along a length-n axis. -/
def softmax {n : ℕ} (v : Fin n → ℝ) : Fin n → ℝ :=
  fun j => Real.exp (v j) / ∑ i, Real.exp (v i)

/-- The i-th entry of the frequency table
    div = exp(arange(0, D, 2) * (-log 10000 / D)) of add_positional_encoding:
    entry i corresponds to arange value 2*i. -/
def peDiv (D i : ℕ) : ℝ := Real.exp ((2 * i : ℕ) * (-Real.log 10000 / D))

/-- The positional-encoding table pe of add_positional_encoding:
    pe[p, 2i] = sin(p * div i), pe[p, 2i+1] = cos(p * div i). -/
def posEnc (D p d : ℕ) : ℝ :=
  if d % 2 = 0 then Real.sin (p * peDiv D (d / 2)) else Real.cos (p * peDiv D (d / 2))

/-- Number of odd-indexed feature columns, the shape of the slice pe[:, 1::2]. -/
def numOddColumns (D : ℕ) : ℕ := D / 2

/-- Number of columns of the computed sin/cos table, the length of arange(0, D, 2). -/
def pairTableColumns (D : ℕ) : ℕ := (D + 1) / 2

/-- add_positional_encoding: adds the sinusoidal table to the input.  The
    assignment pe[:, 1::2] = cos(pos * div) succeeds exactly when the
    odd-column count equals the table's column count (i.e. D is even);
    otherwise torch raises a shape-mismatch error, embedded here as none. -/
def add_positional_encoding {B L D : ℕ} (x : Fin B → Fin L → Fin D → ℝ) :
    Option (Fin B → Fin L → Fin D → ℝ) :=
  if numOddColumns D = pairTableColumns D then
    some (fun b p d => x b p d + posEnc D p.1 d.1)
  else none

/-- Parameters of the SelfAttention module: a combined qkv projection
    Linear(d_model, 3*d_model) and an output projection Linear(d_model, d_model).
    The model dimension is represented in its factored form d_model = H * dk,
    which is exactly the shape the module's assert d_model % heads == 0 demands. -/
structure SelfAttentionParams (H dk : ℕ) where
  qkvW : Fin (3 * (H * dk)) → Fin (H * dk) → ℝ
  qkvB : Fin (3 * (H * dk)) → ℝ
  outW : Fin (H * dk) → Fin (H * dk) → ℝ
  outB : Fin (H * dk) → ℝ

/-- Feature slot of head h, coordinate k, in the concatenated-heads layout
    used by view(B, L, H, dk) / reshape(B, L, D). -/
def headSlot {H dk : ℕ} (h : Fin H) (k : Fin dk) : Fin (H * dk) :=
  ⟨h.1 * dk + k.1, by
    have hh : h.1 + 1 ≤ H := h.2
    have hk : k.1 < dk := k.2
    calc h.1 * dk + k.1 < h.1 * dk + dk := by omega
      _ = (h.1 + 1) * dk := by ring
      _ ≤ H * dk := Nat.mul_le_mul_right dk hh⟩

/-- Slot of component c (0 = Q, 1 = K, 2 = V), head h, coordinate k in the
    combined qkv output, as laid out by view(B, L, 3, H, dk). -/
def qkvSlot {H dk : ℕ} (c : Fin 3) (h : Fin H) (k : Fin dk) : Fin (3 * (H * dk)) :=
  ⟨c.1 * (H * dk) + (h.1 * dk + k.1), by
    have hr : h.1 * dk + k.1 < H * dk := (headSlot h k).2
    have hc : c.1 + 1 ≤ 3 := c.2
    calc c.1 * (H * dk) + (h.1 * dk + k.1) < c.1 * (H * dk) + H * dk := by omega
      _ = (c.1 + 1) * (H * dk) := by ring
      _ ≤ 3 * (H * dk) := Nat.mul_le_mul_right (H * dk) hc⟩

/-- Head index recovered from a concatenated feature slot (reshape(B, L, D)). -/
def slotHead {H dk : ℕ} (e : Fin (H * dk)) : Fin H :=
  ⟨e.1 / dk, by
    have hpos : 0 < H * dk := Nat.lt_of_le_of_lt (Nat.zero_le _) e.2
    have h0 : 0 < dk := by
      rcases Nat.eq_zero_or_pos dk with h | h
      · exact absurd (by rw [h, Nat.mul_zero]) (Nat.pos_iff_ne_zero.mp hpos)
      · exact h
    exact (Nat.div_lt_iff_lt_mul h0).mpr e.2⟩

/-- Coordinate inside a head recovered from a concatenated feature slot. -/
def slotPos {H dk : ℕ} (e : Fin (H * dk)) : Fin dk :=
  ⟨e.1 % dk, by
    have hpos : 0 < H * dk := Nat.lt_of_le_of_lt (Nat.zero_le _) e.2
    have h0 : 0 < dk := by
      rcases Nat.eq_zero_or_pos dk with h | h
      · exact absurd (by rw [h, Nat.mul_zero]) (Nat.pos_iff_ne_zero.mp hpos)
      · exact h
    exact Nat.mod_lt _ h0⟩

/-- The combined qkv projection evaluated at batch b, position l. -/
def saQKV {H dk B L : ℕ} (p : SelfAttentionParams H dk)
    (x : Fin B → Fin L → Fin (H * dk) → ℝ) (b : Fin B) (l : Fin L) :
    Fin (3 * (H * dk)) → ℝ :=
  linW p.qkvW p.qkvB (x b l)

/-- Query tensor Q[b, h, l, k] of SelfAttention.forward. -/
def saQ {H dk B L : ℕ} (p : SelfAttentionParams H dk)
    (x : Fin B → Fin L → Fin (H * dk) → ℝ) (b : Fin B) (h : Fin H) (l : Fin L) (k : Fin dk) : ℝ :=
  saQKV p x b l (qkvSlot 0 h k)

/-- Key tensor K[b, h, l, k] of SelfAttention.forward. -/
def saK {H dk B L : ℕ} (p : SelfAttentionParams H dk)
    (x : Fin B → Fin L → Fin (H * dk) → ℝ) (b : Fin B) (h : Fin H) (l : Fin L) (k : Fin dk) : ℝ :=
  saQKV p x b l (qkvSlot 1 h k)

/-- Value tensor V[b, h, l, k] of SelfAttention.forward. -/
def saV {H dk B L : ℕ} (p : SelfAttentionParams H dk)
    (x : Fin B → Fin L → Fin (H * dk) → ℝ) (b : Fin B) (h : Fin H) (l : Fin L) (k : Fin dk) : ℝ :=
  saQKV p x b l (qkvSlot 2 h k)

/-- Scaled dot-product scores (Q Kᵗ) / sqrt dk. -/
def saScore {H dk B L : ℕ} (p : SelfAttentionParams H dk)
    (x : Fin B → Fin L → Fin (H * dk) → ℝ) (b : Fin B) (h : Fin H) (i j : Fin L) : ℝ :=
  (∑ k, saQ p x b h i k * saK p x b h j k) / Real.sqrt dk

/-- Attention weights A = softmax(scores, dim = -1). -/
def saWeights {H dk B L : ℕ} (p : SelfAttentionParams H dk)
    (x : Fin B → Fin L → Fin (H * dk) → ℝ) (b : Fin B) (h : Fin H) (i : Fin L) : Fin L → ℝ :=
  softmax (saScore p x b h i)

/-- Per-head output (A @ V)[b, h, i, k]. -/
def saHeadOut {H dk B L : ℕ} (p : SelfAttentionParams H dk)
    (x : Fin B → Fin L → Fin (H * dk) → ℝ) (b : Fin B) (h : Fin H) (i : Fin L) (k : Fin dk) : ℝ :=
  ∑ j, saWeights p x b h i j * saV p x b h j k

/-- SelfAttention.forward: out(concat-of-heads) + x (residual connection). -/
def selfAttention {H dk B L : ℕ} (p : SelfAttentionParams H dk)
    (x : Fin B → Fin L → Fin (H * dk) → ℝ) : Fin B → Fin L → Fin (H * dk) → ℝ :=
  fun b i d =>
    linW p.outW p.outB (fun e => saHeadOut p x b (slotHead e) i (slotPos e)) d + x b i d

/-- Parameters of MultiHeadCrossAttention: a query projection, a combined kv
    projection Linear(d_model, 2*d_model), and an output projection. -/
structure CrossAttentionParams (H dk : ℕ) where
  qW : Fin (H * dk) → Fin (H * dk) → ℝ
  qB : Fin (H * dk) → ℝ
  kvW : Fin (2 * (H * dk)) → Fin (H * dk) → ℝ
  kvB : Fin (2 * (H * dk)) → ℝ
  outW : Fin (H * dk) → Fin (H * dk) → ℝ
  outB : Fin (H * dk) → ℝ

/-- Slot of component c (0 = K, 1 = V), head h, coordinate k in the combined
    kv output, as laid out by view(B, S, 2, H, dk). -/
def kvSlot {H dk : ℕ} (c : Fin 2) (h : Fin H) (k : Fin dk) : Fin (2 * (H * dk)) :=
  ⟨c.1 * (H * dk) + (h.1 * dk + k.1), by
    have hr : h.1 * dk + k.1 < H * dk := (headSlot h k).2
    have hc : c.1 + 1 ≤ 2 := c.2
    calc c.1 * (H * dk) + (h.1 * dk + k.1) < c.1 * (H * dk) + H * dk := by omega
      _ = (c.1 + 1) * (H * dk) := by ring
      _ ≤ 2 * (H * dk) := Nat.mul_le_mul_right (H * dk) hc⟩

/-- Query tensor Q[b, h, t, k] of MultiHeadCrossAttention.forward. -/
def caQ {H dk B T : ℕ} (p : CrossAttentionParams H dk)
    (x : Fin B → Fin T → Fin (H * dk) → ℝ) (b : Fin B) (h : Fin H) (t : Fin T) (k : Fin dk) : ℝ :=
  linW p.qW p.qB (x b t) (headSlot h k)

/-- Key tensor K[b, h, s, k], projected from the memory. -/
def caK {H dk B S : ℕ} (p : CrossAttentionParams H dk)
    (memory : Fin B → Fin S → Fin (H * dk) → ℝ) (b : Fin B) (h : Fin H) (s : Fin S) (k : Fin dk) : ℝ :=
  linW p.kvW p.kvB (memory b s) (kvSlot 0 h k)

/-- Value tensor V[b, h, s, k], projected from the memory. -/
def caV {H dk B S : ℕ} (p : CrossAttentionParams H dk)
    (memory : Fin B → Fin S → Fin (H * dk) → ℝ) (b : Fin B) (h : Fin H) (s : Fin S) (k : Fin dk) : ℝ :=
  linW p.kvW p.kvB (memory b s) (kvSlot 1 h k)

/-- Cross-attention scaled dot-product scores. -/
def caScore {H dk B T S : ℕ} (p : CrossAttentionParams H dk)
    (x : Fin B → Fin T → Fin (H * dk) → ℝ) (memory : Fin B → Fin S → Fin (H * dk) → ℝ)
    (b : Fin B) (h : Fin H) (t : Fin T) (s : Fin S) : ℝ :=
  (∑ k, caQ p x b h t k * caK p memory b h s k) / Real.sqrt dk

/-- Cross-attention weights, softmax along the memory axis. -/
def caWeights {H dk B T S : ℕ} (p : CrossAttentionParams H dk)
    (x : Fin B → Fin T → Fin (H * dk) → ℝ) (memory : Fin B → Fin S → Fin (H * dk) → ℝ)
    (b : Fin B) (h : Fin H) (t : Fin T) : Fin S → ℝ :=
  softmax (caScore p x memory b h t)

/-- Per-head cross-attention output (A @ V)[b, h, t, k]. -/
def caHeadOut {H dk B T S : ℕ} (p : CrossAttentionParams H dk)
    (x : Fin B → Fin T → Fin (H * dk) → ℝ) (memory : Fin B → Fin S → Fin (H * dk) → ℝ)
    (b : Fin B) (h : Fin H) (t : Fin T) (k : Fin dk) : ℝ :=
  ∑ s, caWeights p x memory b h t s * caV p memory b h s k

/-- MultiHeadCrossAttention.forward: out(concat-of-heads) + x (residual on the
    query stream, not on the memory). -/
def crossAttention {H dk B T S : ℕ} (p : CrossAttentionParams H dk)
    (x : Fin B → Fin T → Fin (H * dk) → ℝ) (memory : Fin B → Fin S → Fin (H * dk) → ℝ) :
    Fin B → Fin T → Fin (H * dk) → ℝ :=
  fun b t d =>
    linW p.outW p.outB (fun e => caHeadOut p x memory b (slotHead e) t (slotPos e)) d + x b t d

/-- Parameters of FeedForward: Linear(d_model, hidden) → GELU → Linear(hidden, d_model). -/
structure FeedForwardParams (Dm hidden : ℕ) where
  W1 : Fin hidden → Fin Dm → ℝ
  b1 : Fin hidden → ℝ
  W2 : Fin Dm → Fin hidden → ℝ
  b2 : Fin Dm → ℝ

/-- FeedForward.forward: net(x) + x (residual). -/
def feedForward {Dm hidden B L : ℕ} (p : FeedForwardParams Dm hidden)
    (x : Fin B → Fin L → Fin Dm → ℝ) : Fin B → Fin L → Fin Dm → ℝ :=
  fun b l d => linW p.W2 p.b2 (fun j => gelu (linW p.W1 p.b1 (x b l) j)) d + x b l d

/-- One encoder layer: nn.Sequential(SelfAttention(d_model, heads), FeedForward(d_model, hidden)). -/
structure EncoderLayerParams (H dk hidden : ℕ) where
  sa : SelfAttentionParams H dk
  ff : FeedForwardParams (H * dk) hidden

/-- Forward pass of one encoder layer. -/
def encoderLayer {H dk hidden B L : ℕ} (p : EncoderLayerParams H dk hidden)
    (x : Fin B → Fin L → Fin (H * dk) → ℝ) : Fin B → Fin L → Fin (H * dk) → ℝ :=
  feedForward p.ff (selfAttention p.sa x)

/-- Encoder.forward: sequential application of the n layers. -/
def encoderForward {H dk hidden n B L : ℕ} (P : Fin n → EncoderLayerParams H dk hidden)
    (x : Fin B → Fin L → Fin (H * dk) → ℝ) : Fin B → Fin L → Fin (H * dk) → ℝ :=
  (List.ofFn P).foldl (fun acc lp => encoderLayer lp acc) x

/-- One decoder layer: SelfAttention, then MultiHeadCrossAttention against the
    encoder memory, then FeedForward. -/
structure DecoderLayerParams (H dk hidden : ℕ) where
  sa : SelfAttentionParams H dk
  ca : CrossAttentionParams H dk
  ff : FeedForwardParams (H * dk) hidden

/-- Forward pass of one decoder layer: x = sa(x); x = ca(x, enc_out); x = ff(x). -/
def decoderLayer {H dk hidden B T S : ℕ} (p : DecoderLayerParams H dk hidden)
    (memory : Fin B → Fin S → Fin (H * dk) → ℝ)
    (x : Fin B → Fin T → Fin (H * dk) → ℝ) : Fin B → Fin T → Fin (H * dk) → ℝ :=
  feedForward p.ff (crossAttention p.ca (selfAttention p.sa x) memory)

/-- Decoder.forward: sequential application of the n decoder layers, all
    cross-attending to the same encoder output. -/
def decoderForward {H dk hidden n B T S : ℕ} (P : Fin n → DecoderLayerParams H dk hidden)
    (x : Fin B → Fin T → Fin (H * dk) → ℝ)
    (memory : Fin B → Fin S → Fin (H * dk) → ℝ) : Fin B → Fin T → Fin (H * dk) → ℝ :=
  (List.ofFn P).foldl (fun acc lp => decoderLayer lp memory acc) x

/-- Parameters of RULHead with hidden_dims = [128, 64], as instantiated by the
    inference function: Linear(d_model, 128) → GELU → Linear(128, 64) → GELU →
    Linear(64, 1). -/
structure RULHeadParams (Dm : ℕ) where
  W1 : Fin 128 → Fin Dm → ℝ
  b1 : Fin 128 → ℝ
  W2 : Fin 64 → Fin 128 → ℝ
  b2 : Fin 64 → ℝ
  W3 : Fin 1 → Fin 64 → ℝ
  b3 : Fin 1 → ℝ

/-- RULHead.net applied to a single d_model-vector, producing the scalar
    (the squeeze(-1) of the width-1 output). -/
def rulHeadVec {Dm : ℕ} (p : RULHeadParams Dm) (v : Fin Dm → ℝ) : ℝ :=
  linW p.W3 p.b3 (fun j => gelu (linW p.W2 p.b2 (fun i => gelu (linW p.W1 p.b1 v i)) j)) 0

/-- The final time-step index T − 1, the index -1 of x[:, -1, :]. -/
def lastStep {T : ℕ} (hT : 0 < T) : Fin T := ⟨T - 1, by omega⟩

/-- RULHead.forward: self.net(x[:, -1, :]).squeeze(-1) — one scalar per batch
    element, computed from the final time step only. -/
def rulHeadForward {Dm B T : ℕ} (p : RULHeadParams Dm)
    (x : Fin B → Fin T → Fin Dm → ℝ) (hT : 0 < T) : Fin B → ℝ :=
  fun b => rulHeadVec p (x b (lastStep hT))

/-- The inverse transform from log-RUL space applied to the head's scalar:
    pred_rul = math.pow(100, pred_log_rul.item()) - 1. -/
def rulTransform (s : ℝ) : ℝ := (100 : ℝ) ^ s - 1

/-- The window slice val_tensor[-W:]: Python slicing clamps the start index at
    0, so a sequence shorter than W is returned whole (and -0: is the whole
    sequence as well). -/
def lastWindow {α : Type} (W : ℕ) (xs : List α) : List α :=
  if W = 0 then xs else xs.drop (xs.length - W)

/-- unsqueeze(0): a loaded list of feature rows as a (1, length, D) tensor. -/
def toTensor {Dm : ℕ} (xs : List (Fin Dm → ℝ)) : Fin 1 → Fin xs.length → Fin Dm → ℝ :=
  fun _ l d => xs.get l d

/-- The three weight sets loaded by infer_rul_without_gt: encoder, decoder and
    head, with the architecture fixed to n layers (the code uses n = 3,
    d_model = 36 = 4 * 9, heads = 4, hidden = 256). -/
structure ModelParams (H dk hidden n : ℕ) where
  enc : Fin n → EncoderLayerParams H dk hidden
  dec : Fin n → DecoderLayerParams H dk hidden
  head : RULHeadParams (H * dk)

/-- One iteration of the inference loop of infer_rul_without_gt, for a session
    whose reference sequence and validation sequence are already loaded:
    truncate the validation sequence to its last W rows, positionally encode
    both streams, run encoder, decoder and head, and invert the log transform.
    The two failure points of the loop body are embedded as none: the
    positional-encoding shape mismatch (odd D) and the empty-window indexing
    x[:, -1, :]. -/
def processSession {H dk hidden n : ℕ} (W : ℕ) (P : ModelParams H dk hidden n)
    (ref val : List (Fin (H * dk) → ℝ)) : Option ℝ :=
  (add_positional_encoding (toTensor ref)).bind fun encIn =>
    (add_positional_encoding (toTensor (lastWindow W val))).bind fun decIn =>
      if hT : 0 < (lastWindow W val).length then
        some (rulTransform (rulHeadForward P.head
          (decoderForward P.dec decIn (encoderForward P.enc encIn)) hT 0))
      else none

/-- The whole inference loop over a batch of (reference, validation) sessions. -/
def runBatch {H dk hidden n : ℕ} (W : ℕ) (P : ModelParams H dk hidden n)
    (sessions : List (List (Fin (H * dk) → ℝ) × List (Fin (H * dk) → ℝ))) : List (Option ℝ) :=
  sessions.map fun s => processSession W P s.1 s.2

/-- One loop iteration of infer_rul_without_gt with the mutable program state
    made explicit: the state carries the loaded model parameters and the
    results accumulated so far; the body reads the parameters and appends one
    result. -/
def inferStep {H dk hidden n : ℕ} (W : ℕ)
    (st : ModelParams H dk hidden n × List (Option ℝ))
    (sess : List (Fin (H * dk) → ℝ) × List (Fin (H * dk) → ℝ)) :
    ModelParams H dk hidden n × List (Option ℝ) :=
  (st.1, st.2 ++ [processSession W st.1 sess.1 sess.2])

/-- The inference loop as a fold over the explicit state. -/
def runBatchSt {H dk hidden n : ℕ} (W : ℕ) (P : ModelParams H dk hidden n)
    (sessions : List (List (Fin (H * dk) → ℝ) × List (Fin (H * dk) → ℝ))) :
    ModelParams H dk hidden n × List (Option ℝ) :=
  sessions.foldl (inferStep W) (P, [])

/-- The cosine assignment's shapes match exactly when D is even. -/
lemma pe_guard_iff (D : ℕ) : numOddColumns D = pairTableColumns D ↔ D % 2 = 0 := by
  unfold numOddColumns pairTableColumns
  omega

/-- For even D the positional encoding succeeds and adds the table posEnc. -/
lemma add_positional_encoding_even {B L D : ℕ} (hD : D % 2 = 0)
    (x : Fin B → Fin L → Fin D → ℝ) :
    add_positional_encoding x = some (fun b p d => x b p d + posEnc D p.1 d.1) := by
  unfold add_positional_encoding
  rw [if_pos ((pe_guard_iff D).mpr hD)]

/-- The frequency table entry is 10000^(-(2i)/D). -/
lemma peDiv_eq_rpow (D i : ℕ) :
    peDiv D i = ((10000 : ℝ) ^ (((2 * i : ℕ) : ℝ) / (D : ℝ)))⁻¹ := by
  unfold peDiv
  rw [Real.rpow_def_of_pos (by norm_num : (0:ℝ) < 10000), ← Real.exp_neg]
  congr 1
  ring

/-- The position-dependent bias exactly as the specification words it:
    value sin(p / 10000^(2i/D)) at time index p and feature index 2i, and
    cos(p / 10000^(2i/D)) at feature index 2i + 1. -/
def claimPosBias (D p d : ℕ) : ℝ :=
  if d % 2 = 0 then Real.sin ((p : ℝ) / (10000 : ℝ) ^ ((d : ℝ) / (D : ℝ)))
  else Real.cos ((p : ℝ) / (10000 : ℝ) ^ (((d : ℝ) - 1) / (D : ℝ)))

/-- The table computed by the code coincides with the specification's formula
    (for even feature indices d = 2i the exponent is d/D; for odd d = 2i + 1 it
    is (d − 1)/D). -/
lemma posEnc_eq_claim (D p d : ℕ) : posEnc D p d = claimPosBias D p d := by
  unfold posEnc claimPosBias
  rcases Nat.even_or_odd d with he | ho
  · have h2 : d % 2 = 0 := Nat.even_iff.mp he
    rw [if_pos h2, if_pos h2, peDiv_eq_rpow, ← div_eq_mul_inv]
    have h3 : ((2 * (d / 2) : ℕ) : ℝ) = (d : ℝ) := by
      have h4 : 2 * (d / 2) = d := by omega
      rw [h4]
    rw [h3]
  · have h1 : d % 2 = 1 := Nat.odd_iff.mp ho
    rw [if_neg (by omega), if_neg (by omega), peDiv_eq_rpow, ← div_eq_mul_inv]
    have h3 : ((2 * (d / 2) : ℕ) : ℝ) = (d : ℝ) - 1 := by
      have h4 : 2 * (d / 2) = d - 1 := by omega
      rw [h4, Nat.cast_sub (by omega : 1 ≤ d), Nat.cast_one]
    rw [h3]

/-- C5: for every input tensor of shape (batch, L, D) with paired feature
    columns (even D — the claim's indexing by 2i and 2i + 1; the odd case is
    the failure analysed in the parity theorem), add_positional_encoding
    returns the input plus the position-dependent bias whose value at time
    index p and feature index 2i is sin(p / 10000^(2i/D)) and at feature index
    2i + 1 is cos(p / 10000^(2i/D)). -/
theorem positional_encoding_formula (B L D : ℕ) (hD : D % 2 = 0)
    (x : Fin B → Fin L → Fin D → ℝ) :
    add_positional_encoding x = some (fun b p d => x b p d + claimPosBias D p.1 d.1) := by
  rw [add_positional_encoding_even hD]
  congr 1
  funext b p d
  rw [posEnc_eq_claim]

/-- Concrete input for the C5 witness. -/
def w5x : Fin 1 → Fin 1 → Fin 2 → ℝ := fun _ _ _ => 0

/-- Witness for C5 at B = L = 1, D = 2. -/
theorem positional_encoding_formula_witness :
    2 % 2 = 0 ∧
      add_positional_encoding w5x = some (fun b p d => w5x b p d + claimPosBias 2 p.1 d.1) :=
  ⟨rfl, positional_encoding_formula 1 1 2 rfl w5x⟩

/-- C10: add_positional_encoding is only defined for even feature dimension D:
    for even D it succeeds, and for odd D the assignment of the cosine half
    fails with a shape mismatch — the odd-indexed column block has one fewer
    column than the computed sin/cos table. -/
theorem positional_encoding_parity (B L D : ℕ) (x : Fin B → Fin L → Fin D → ℝ) :
    (D % 2 = 0 → (add_positional_encoding x).isSome) ∧
      (D % 2 = 1 → add_positional_encoding x = none ∧ numOddColumns D + 1 = pairTableColumns D) := by
  constructor
  · intro hD
    rw [add_positional_encoding_even hD]
    rfl
  · intro hD
    refine ⟨?_, by unfold numOddColumns pairTableColumns; omega⟩
    unfold add_positional_encoding
    rw [if_neg]
    unfold numOddColumns pairTableColumns
    omega

/-- Concrete even-dimension input for the C10 witness. -/
def w10a : Fin 1 → Fin 1 → Fin 2 → ℝ := fun _ _ _ => 0

/-- Concrete odd-dimension input for the C10 witness. -/
def w10b : Fin 1 → Fin 1 → Fin 3 → ℝ := fun _ _ _ => 0

/-- Witness for C10 at D = 2 (success) and D = 3 (failure). -/
theorem positional_encoding_parity_witness :
    (add_positional_encoding w10a).isSome ∧
      (add_positional_encoding w10b = none ∧ numOddColumns 3 + 1 = pairTableColumns 3) :=
  ⟨(positional_encoding_parity 1 1 2 w10a).1 rfl, (positional_encoding_parity 1 1 3 w10b).2 rfl⟩

/-- C2: the pipeline's inverse transform from the model's log-RUL scalar s to
    the reported RUL is exactly 100^s − 1; it maps 0 to 0, maps 2 to 9999, and
    is strictly increasing. -/
theorem inverse_transform_spec :
    (∀ s : ℝ, rulTransform s = (100 : ℝ) ^ s - 1) ∧
      rulTransform 0 = 0 ∧ rulTransform 2 = 9999 ∧ StrictMono rulTransform := by
  refine ⟨fun s => rfl, ?_, ?_, ?_⟩
  · unfold rulTransform
    rw [Real.rpow_zero]
    norm_num
  · unfold rulTransform
    have h : ((2 : ℝ)) = ((2 : ℕ) : ℝ) := by norm_num
    rw [h, Real.rpow_natCast]
    norm_num
  · intro a b hab
    unfold rulTransform
    have h := (Real.rpow_lt_rpow_left_iff (by norm_num : (1:ℝ) < 100)).mpr hab
    linarith

/-- With a zero output projection the attention contribution vanishes and only
    the residual remains, whatever the qkv projection computes. -/
lemma selfAttention_out_zero {H dk B L : ℕ} (p : SelfAttentionParams H dk)
    (x : Fin B → Fin L → Fin (H * dk) → ℝ) (h3 : p.outW = 0) (h4 : p.outB = 0) :
    selfAttention p x = x := by
  funext b i d
  simp [selfAttention, linW, h3, h4]

/-- C7: if all attention projection weights of a SelfAttentionBlock are zero,
    the block's output equals its input exactly — the residual connection
    alone. -/
theorem residual_only_zero_weights (H dk B L : ℕ) (p : SelfAttentionParams H dk)
    (x : Fin B → Fin L → Fin (H * dk) → ℝ)
    (h1 : p.qkvW = 0) (h2 : p.qkvB = 0) (h3 : p.outW = 0) (h4 : p.outB = 0) :
    selfAttention p x = x :=
  selfAttention_out_zero p x h3 h4

/-- All-zero self-attention parameters. -/
def zeroSA (H dk : ℕ) : SelfAttentionParams H dk := ⟨0, 0, 0, 0⟩

/-- All-zero cross-attention parameters. -/
def zeroCA (H dk : ℕ) : CrossAttentionParams H dk := ⟨0, 0, 0, 0, 0, 0⟩

/-- All-zero feed-forward parameters. -/
def zeroFF (Dm hidden : ℕ) : FeedForwardParams Dm hidden := ⟨0, 0, 0, 0⟩

/-- Concrete input for the C7 witness. -/
def w7x : Fin 1 → Fin 1 → Fin (1 * 1) → ℝ := fun _ _ _ => 5

/-- Witness for C7 at H = dk = B = L = 1 with the all-zero parameters. -/
theorem residual_only_zero_weights_witness :
    selfAttention (zeroSA 1 1) w7x = w7x :=
  residual_only_zero_weights 1 1 1 1 (zeroSA 1 1) w7x rfl rfl rfl rfl

/-- C4: RULHead maps decoder output (B, T, D) to one scalar per batch element
    using only the vector at the final time step T − 1 (two tensors agreeing
    there get identical outputs, whatever the other positions hold), and that
    vector passes through Linear(D,128) → GELU → Linear(128,64) → GELU →
    Linear(64,1), a single scalar. -/
theorem rul_head_last_step (Dm B T : ℕ) (p : RULHeadParams Dm)
    (x y : Fin B → Fin T → Fin Dm → ℝ) (hT : 0 < T) (b : Fin B)
    (hxy : x b (lastStep hT) = y b (lastStep hT)) :
    rulHeadForward p x hT b = rulHeadForward p y hT b ∧
      rulHeadForward p x hT b =
        linW p.W3 p.b3 (fun j => gelu (linW p.W2 p.b2
          (fun i => gelu (linW p.W1 p.b1 (x b (lastStep hT)) i)) j)) 0 := by
  constructor
  · unfold rulHeadForward rulHeadVec
    rw [hxy]
  · rfl

/-- All-zero head parameters for the C4 witness. -/
def w4p : RULHeadParams 1 := ⟨0, 0, 0, 0, 0, 0⟩

/-- A (1, 2, 1) tensor whose rows differ across time steps. -/
def w4x : Fin 1 → Fin 2 → Fin 1 → ℝ := fun _ t _ => (t.1 : ℝ)

/-- A (1, 2, 1) tensor agreeing with w4x at the final time step only. -/
def w4y : Fin 1 → Fin 2 → Fin 1 → ℝ := fun _ _ _ => 1

/-- Witness for C4: w4x and w4y differ at time step 0 but agree at the final
    step, so the head's outputs coincide. -/
theorem rul_head_last_step_witness :
    w4x 0 (lastStep (Nat.succ_pos 1)) = w4y 0 (lastStep (Nat.succ_pos 1)) ∧
      rulHeadForward w4p w4x (Nat.succ_pos 1) 0 = rulHeadForward w4p w4y (Nat.succ_pos 1) 0 := by
  have hxy : w4x 0 (lastStep (Nat.succ_pos 1)) = w4y 0 (lastStep (Nat.succ_pos 1)) := by
    funext d
    simp [w4x, w4y, lastStep]
  exact ⟨hxy, (rul_head_last_step 1 1 2 w4p w4x w4y (Nat.succ_pos 1) 0 hxy).1⟩

/-- A tensor carrying its (batch, length, dim) shape, for stating shape
    preservation. -/
structure Tensor3 where
  batch : ℕ
  len : ℕ
  dim : ℕ
  data : Fin batch → Fin len → Fin dim → ℝ

/-- SelfAttentionBlock on a shape-carrying tensor whose feature dimension
    satisfies D % H == 0 (witnessed by D = H * dk). -/
def selfAttentionT {H dk : ℕ} (p : SelfAttentionParams H dk) (t : Tensor3)
    (ht : t.dim = H * dk) : Tensor3 :=
  ⟨t.batch, t.len, t.dim, fun b l d =>
    selfAttention p (fun b2 l2 e => t.data b2 l2 (Fin.cast ht.symm e)) b l (Fin.cast ht d)⟩

/-- CrossAttentionBlock on shape-carrying tensors: query stream t and a memory
    m of arbitrary length. -/
def crossAttentionT {H dk : ℕ} (p : CrossAttentionParams H dk) (t m : Tensor3)
    (ht : t.dim = H * dk) (hm : m.dim = H * dk) (hb : m.batch = t.batch) : Tensor3 :=
  ⟨t.batch, t.len, t.dim, fun b l d =>
    crossAttention p (fun b2 l2 e => t.data b2 l2 (Fin.cast ht.symm e))
      (fun b2 s e => m.data (Fin.cast hb.symm b2) s (Fin.cast hm.symm e)) b l (Fin.cast ht d)⟩

/-- C6: for every factored dimension D = H * dk (i.e. D % H == 0),
    SelfAttentionBlock maps a (B, L, D) input to a (B, L, D) output, and
    CrossAttentionBlock maps a (B, T, D) query stream with a memory of any
    length S to a (B, T, D) output. -/
theorem attention_shape_preservation (H dk : ℕ) (p : SelfAttentionParams H dk)
    (q : CrossAttentionParams H dk) (t m : Tensor3)
    (ht : t.dim = H * dk) (hm : m.dim = H * dk) (hb : m.batch = t.batch) :
    ((selfAttentionT p t ht).batch = t.batch ∧ (selfAttentionT p t ht).len = t.len ∧
        (selfAttentionT p t ht).dim = t.dim) ∧
      ((crossAttentionT q t m ht hm hb).batch = t.batch ∧
        (crossAttentionT q t m ht hm hb).len = t.len ∧
        (crossAttentionT q t m ht hm hb).dim = t.dim) :=
  ⟨⟨rfl, rfl, rfl⟩, ⟨rfl, rfl, rfl⟩⟩

/-- Concrete (1, 1, 1) query tensor for the C6 witness. -/
def w6t : Tensor3 := ⟨1, 1, 1 * 1, fun _ _ _ => 0⟩

/-- Concrete (1, 2, 1) memory tensor for the C6 witness: its length differs
    from the query stream's. -/
def w6m : Tensor3 := ⟨1, 2, 1 * 1, fun _ _ _ => 0⟩

/-- Witness for C6 at H = dk = 1 with a length-2 memory. -/
theorem attention_shape_preservation_witness :
    ((selfAttentionT (zeroSA 1 1) w6t rfl).batch = w6t.batch ∧
        (selfAttentionT (zeroSA 1 1) w6t rfl).len = w6t.len ∧
        (selfAttentionT (zeroSA 1 1) w6t rfl).dim = w6t.dim) ∧
      ((crossAttentionT (zeroCA 1 1) w6t w6m rfl rfl rfl).batch = w6t.batch ∧
        (crossAttentionT (zeroCA 1 1) w6t w6m rfl rfl rfl).len = w6t.len ∧
        (crossAttentionT (zeroCA 1 1) w6t w6m rfl rfl rfl).dim = w6t.dim) :=
  attention_shape_preservation 1 1 (zeroSA 1 1) (zeroCA 1 1) w6t w6m rfl rfl rfl

/-- A head weight set of the architecture's exact shapes whose only nonzero
    parameter is the final bias, set to −1. -/
def cexHead : RULHeadParams (4 * 9) := ⟨0, 0, 0, 0, 0, fun _ => -1⟩

/-- Model parameters of the exact architecture the code instantiates
    (3 layers, d_model = 36 = 4 * 9, 4 heads, hidden 256): all weights zero
    except the head's final bias −1. -/
def cexParams : ModelParams 4 9 256 3 :=
  ⟨fun _ => ⟨zeroSA 4 9, zeroFF (4 * 9) 256⟩,
   fun _ => ⟨zeroSA 4 9, zeroCA 4 9, zeroFF (4 * 9) 256⟩,
   cexHead⟩

/-- With the cexHead weights the head outputs −1 on every input vector. -/
lemma rulHeadVec_cexHead (v : Fin (4 * 9) → ℝ) : rulHeadVec cexHead v = -1 := by
  simp [rulHeadVec, linW, cexHead]

/-- On any session whose window is nonempty, the pipeline with cexParams emits
    exactly rulTransform (−1) = 100^(−1) − 1. -/
lemma processSession_cex (W : ℕ) (ref val : List (Fin (4 * 9) → ℝ))
    (h : 0 < (lastWindow W val).length) :
    processSession W cexParams ref val = some (rulTransform (-1)) := by
  unfold processSession
  rw [add_positional_encoding_even (show (4 * 9) % 2 = 0 by norm_num),
    add_positional_encoding_even (show (4 * 9) % 2 = 0 by norm_num)]
  simp only [Option.some_bind]
  rw [dif_pos h]
  unfold rulHeadForward
  simp only [cexParams]
  rw [rulHeadVec_cexHead]

/-- A 10-row validation sequence of zeros: shorter than the window size 21. -/
def shortVal : List (Fin (4 * 9) → ℝ) := List.replicate 10 (fun _ => 0)

/-- A 30-row validation sequence of zeros: longer than the window size 21. -/
def okVal : List (Fin (4 * 9) → ℝ) := List.replicate 30 (fun _ => 0)

/-- C1 counterexample: with window size 21, a 10-row validation sequence does
    NOT fail — the slice val_tensor[-21:] returns the whole 10-row sequence
    and the session produces a PredictionResult exactly like the valid 30-row
    session in the same batch; no DataError exists and no failed result is
    recorded. -/
theorem short_window_counterexample :
    lastWindow 21 shortVal = shortVal ∧
      runBatch 21 cexParams [([], shortVal), ([], okVal)] =
        [some (rulTransform (-1)), some (rulTransform (-1))] := by
  constructor
  · simp [lastWindow, shortVal]
  · unfold runBatch
    simp only [List.map]
    rw [processSession_cex 21 [] shortVal (by simp [lastWindow, shortVal]),
      processSession_cex 21 [] okVal (by simp [lastWindow, okVal])]

/-- C1 amended: a validation sequence with 0 < length ≤ W is processed whole —
    the slice keeps every row, no error is raised, and the session yields a
    result like any other. -/
theorem short_window_amended (W hidden n : ℕ) (P : ModelParams 4 9 hidden n)
    (ref val : List (Fin (4 * 9) → ℝ)) (hW : 0 < W) (hlen : val.length ≤ W)
    (hne : val ≠ []) :
    lastWindow W val = val ∧ (processSession W P ref val).isSome := by
  have hwin : lastWindow W val = val := by
    unfold lastWindow
    rw [if_neg (by omega), Nat.sub_eq_zero_of_le hlen, List.drop_zero]
  have hT : 0 < (lastWindow W val).length := by
    rw [hwin]
    exact List.length_pos.mpr hne
  refine ⟨hwin, ?_⟩
  unfold processSession
  rw [add_positional_encoding_even (show (4 * 9) % 2 = 0 by norm_num),
    add_positional_encoding_even (show (4 * 9) % 2 = 0 by norm_num)]
  simp only [Option.some_bind]
  rw [dif_pos hT]
  rfl

/-- Witness for the amended C1 at W = 21 with the 10-row sequence. -/
theorem short_window_amended_witness :
    (0 < 21 ∧ shortVal.length ≤ 21 ∧ shortVal ≠ []) ∧
      (lastWindow 21 shortVal = shortVal ∧ (processSession 21 cexParams [] shortVal).isSome) := by
  have h1 : (0:ℕ) < 21 := by norm_num
  have h2 : shortVal.length ≤ 21 := by simp [shortVal]
  have h3 : shortVal ≠ [] := by simp [shortVal]
  exact ⟨⟨h1, h2, h3⟩, short_window_amended 21 256 3 cexParams [] shortVal h1 h2 h3⟩

/-- C3 counterexample: with loadable weights (all zero except the head's final
    bias −1) a valid session's predicted RUL is 100^(−1) − 1 = −0.99 < 0. -/
theorem rul_nonneg_counterexample :
    processSession 21 cexParams ([] : List (Fin (4 * 9) → ℝ)) shortVal =
        some (rulTransform (-1)) ∧
      rulTransform (-1) < 0 := by
  constructor
  · exact processSession_cex 21 [] shortVal (by simp [lastWindow, shortVal])
  · have h1 : (100 : ℝ) ^ (-1 : ℝ) < 1 :=
      Real.rpow_lt_one_of_one_lt_of_neg (by norm_num) (by norm_num)
    unfold rulTransform
    linarith

/-- C3 amended: every RUL the pipeline emits is > −1 (since 100^s > 0), and it
    is ≥ 0 exactly when the head's log-RUL scalar is ≥ 0 — the code does not
    constrain that scalar's sign. -/
theorem rul_lower_bound (H dk hidden n W : ℕ) (P : ModelParams H dk hidden n)
    (ref val : List (Fin (H * dk) → ℝ)) (r : ℝ)
    (h : processSession W P ref val = some r) :
    -1 < r ∧ (0 ≤ r ↔ ∃ s : ℝ, r = rulTransform s ∧ 0 ≤ s) := by
  have hform : ∃ s : ℝ, r = rulTransform s := by
    unfold processSession at h
    rcases hx : add_positional_encoding (toTensor ref) with _ | encIn
    · rw [hx] at h
      simp at h
    · rw [hx] at h
      simp only [Option.some_bind] at h
      rcases hy : add_positional_encoding (toTensor (lastWindow W val)) with _ | decIn
      · rw [hy] at h
        simp at h
      · rw [hy] at h
        simp only [Option.some_bind] at h
        by_cases hT : 0 < (lastWindow W val).length
        · rw [dif_pos hT] at h
          exact ⟨_, (Option.some_inj.mp h).symm⟩
        · rw [dif_neg hT] at h
          simp at h
  rcases hform with ⟨s, hs⟩
  have hpos : (0:ℝ) < (100:ℝ) ^ s := Real.rpow_pos_of_pos (by norm_num) s
  constructor
  · rw [hs]
    unfold rulTransform
    linarith
  · constructor
    · intro hr
      refine ⟨s, hs, ?_⟩
      have h1 : (1:ℝ) ≤ (100:ℝ) ^ s := by
        rw [hs] at hr
        unfold rulTransform at hr
        linarith
      have h2 : (100:ℝ) ^ (0:ℝ) ≤ (100:ℝ) ^ s := by
        rw [Real.rpow_zero]
        exact h1
      exact (Real.rpow_le_rpow_left_iff (by norm_num : (1:ℝ) < 100)).mp h2
    · rintro ⟨u, hu, hu0⟩
      have h2 : (100:ℝ) ^ (0:ℝ) ≤ (100:ℝ) ^ u :=
        (Real.rpow_le_rpow_left_iff (by norm_num : (1:ℝ) < 100)).mpr hu0
      rw [Real.rpow_zero] at h2
      rw [hu]
      unfold rulTransform
      linarith

/-- Witness for the amended C3 at the concrete session of the counterexample. -/
theorem rul_lower_bound_witness :
    processSession 21 cexParams ([] : List (Fin (4 * 9) → ℝ)) shortVal =
        some (rulTransform (-1)) ∧
      -1 < rulTransform (-1) := by
  have h := processSession_cex 21 [] shortVal (by simp [lastWindow, shortVal])
  exact ⟨h, (rul_lower_bound 4 9 256 3 21 cexParams [] shortVal (rulTransform (-1)) h).1⟩

/-- The loop threads the parameter component of its state through unchanged
    and appends one result per session, whatever the accumulator holds. -/
lemma runBatchSt_foldl {H dk hidden n : ℕ} (W : ℕ) (P : ModelParams H dk hidden n)
    (ss : List (List (Fin (H * dk) → ℝ) × List (Fin (H * dk) → ℝ)))
    (acc : List (Option ℝ)) :
    ss.foldl (inferStep W) (P, acc) =
      (P, acc ++ ss.map fun s => processSession W P s.1 s.2) := by
  induction ss generalizing acc with
  | nil => simp
  | cons s ss ih =>
    simp only [List.foldl_cons, List.map_cons]
    rw [show inferStep W (P, acc) s = (P, acc ++ [processSession W P s.1 s.2]) from rfl, ih]
    simp

/-- C8: the loaded ModelParameters are never mutated by inference — after the
    batch loop the parameter state equals the loaded parameters, every result
    is the pure per-session computation on those parameters, and running the
    batch again from the post-loop parameters reproduces the run exactly. -/
theorem model_params_frame (H dk hidden n W : ℕ) (P : ModelParams H dk hidden n)
    (ss : List (List (Fin (H * dk) → ℝ) × List (Fin (H * dk) → ℝ))) :
    (runBatchSt W P ss).1 = P ∧
      (runBatchSt W P ss).2 = runBatch W P ss ∧
      runBatchSt W (runBatchSt W P ss).1 ss = runBatchSt W P ss := by
  have h := runBatchSt_foldl W P ss []
  simp only [List.nil_append] at h
  unfold runBatchSt runBatch
  rw [h]
  exact ⟨rfl, rfl, h⟩

/-- The exception Python raises when a global name is looked up but unbound. -/
inductive PyNameError where
  | unbound_base_dir

/-- The compiled-in best_matches table of infer_rul_without_gt. -/
def best_matches : List (String × String) :=
  [("validation1", "train3.csv"), ("validation2", "train5.csv"),
   ("validation3", "train5.csv"), ("validation4", "train5.csv"),
   ("validation5", "train7.csv"), ("validation6", "train5.csv")]

/-- val_csv = Path(base_dir) / "validation" / "feature" / (val_name + ".csv"):
    built from the module-level global base_dir, not from any parameter. -/
def valCsvPath (baseDir valName : String) : String :=
  baseDir ++ "/validation/feature/" ++ valName ++ ".csv"

/-- train_csv = Path(data_dir) / train_file: the only use of the data_dir
    parameter. -/
def trainCsvPath (dataDir trainFile : String) : String := dataDir ++ "/" ++ trainFile

/-- Path resolution of the inference loop: for each best_matches entry the
    validation path is built from the module-level global base_dir (modelled
    as None when the name is unbound at module scope — Python then raises
    NameError at the first loop iteration, before any result is produced)
    and the training path from the data_dir parameter. -/
def resolveSessionPaths (baseDir : Option String) (dataDir : String) :
    Except PyNameError (List (String × String)) :=
  best_matches.mapM fun vt =>
    match baseDir with
    | none => Except.error PyNameError.unbound_base_dir
    | some bd => Except.ok (valCsvPath bd vt.1, trainCsvPath dataDir vt.2)

/-- C9: the validation CSV paths come from the global base_dir, not from the
    function's parameters: with base_dir unbound the loop fails with NameError
    and produces no results, with base_dir bound it resolves every session
    against base_dir, and the validation paths are identical for any two
    values of the data_dir parameter. -/
theorem base_dir_resolution (d bd d1 d2 : String) :
    resolveSessionPaths none d = Except.error PyNameError.unbound_base_dir ∧
      resolveSessionPaths (some bd) d1 =
        Except.ok (best_matches.map fun vt => (valCsvPath bd vt.1, trainCsvPath d1 vt.2)) ∧
      (resolveSessionPaths (some bd) d1).map (List.map Prod.fst) =
        (resolveSessionPaths (some bd) d2).map (List.map Prod.fst) :=
  ⟨rfl, rfl, rfl⟩
